import Mathlib

/-!
Shallow embedding of the `logger` Go package (file `logger.go`): a leveled
logger with a size-rotating file handler.  The filesystem is modelled as a
partial map from path strings to file contents; filesystem-effecting calls
additionally emit an effect trace so that ordering properties can be stated.
Go `int`/`int64` values are modelled as `Int` (no overflow is relevant at the
sizes involved).
-/

namespace Logger

/-! ### Decimal rendering of naturals

`fmt.Sprintf("%s.%d", fileName, i)` builds backup file names, so reasoning
about distinctness of backup names needs injectivity of the decimal rendering
`Nat.repr`.  We prove it by evaluating the digit string back to a number. -/

/-- Numeric value of a decimal digit character, inverse of `Nat.digitChar`
on digits 0..9. -/
def decDigitVal (c : Char) : Nat := c.toNat - 48

/-- Value of a most-significant-first decimal digit string. -/
def valOfDigits (ds : List Char) : Nat := ds.foldl (fun a c => 10 * a + decDigitVal c) 0

/-! ### Filesystem model

The filesystem is a partial map from path strings to file contents.  Effects
record which filesystem/file-descriptor operations a call performs, in
order. -/

/-- A filesystem: a partial map from path to content. -/
def FS : Type := String → Option String

/-- Destinations a log write can reach (console streams and the rotating
file). -/
inductive Dest where
  | stdout
  | stderr
  | file
deriving DecidableEq, Repr

/-- Observable effects of the logger operations, in execution order. -/
inductive Eff where
  | statCall
  | closeFd
  | renameFile (src dst : String)
  | openFile (p : String)
  | append (p : String) (data : String)
  | emit (d : Dest) (msg : String)
  | syncFd
  | exitProc (code : Int)
deriving DecidableEq, Repr

/-- Set the content of a path. -/
def fsWrite (fs : FS) (p c : String) : FS :=
  fun q => if q = p then some c else fs q

/-- Remove a path. -/
def fsErase (fs : FS) (p : String) : FS :=
  fun q => if q = p then none else fs q

/-- Model of `os.Rename`: if `src` exists its content moves to `dst`
(overwriting `dst`); if `src` is missing the rename fails and the filesystem
is unchanged (the caller in `doRollover` ignores the error). -/
def osRename (fs : FS) (src dst : String) : FS :=
  match fs src with
  | none => fs
  | some c => fsWrite (fsErase fs src) dst c

/-- Model of opening with `O_CREATE|O_WRONLY|O_APPEND`: creates an empty file
when absent, keeps the content when present. -/
def openAppend (fs : FS) (p : String) : FS :=
  match fs p with
  | none => fsWrite fs p ""
  | some _ => fs

/-- Append `data` to the file at `p` (the effect of `fd.Write` on the open
descriptor, which always refers to the file currently named `p`). -/
def appendFile (fs : FS) (p data : String) : FS :=
  fsWrite fs p (((fs p).getD "") ++ data)

/-- Size reported by `fd.Stat()` (content length in bytes; contents here are
ASCII so `String.length` is the byte count). -/
def fileSize (fs : FS) (p : String) : Int :=
  ((fs p).getD "").length

/-- Backup file name `fmt.Sprintf("%s.%d", fileName, i)`. -/
def backupName (fileName : String) (i : Nat) : String :=
  fileName ++ "." ++ Nat.repr i

/-! ### RotatingFileHandler -/

/-- Configuration fields of `RotatingFileHandler` (the `fd` is implicit: it
always refers to the file currently at `fileName`). -/
structure RotatingFileHandler where
  fileName : String
  maxBytes : Int
  backupCount : Int
deriving DecidableEq, Repr

/-- The backup-shift loop of `doRollover`:
`for i := backupCount - 1; i > 0; i-- { os.Rename(name.i, name.(i+1)) }`.
The `Nat` argument is the loop variable `i`; iteration order is decreasing. -/
def shiftLoop (fileName : String) : Nat → FS → FS × List Eff
  | 0, fs => (fs, [])
  | i + 1, fs =>
    let src := backupName fileName (i + 1)
    let dst := backupName fileName (i + 2)
    let res := shiftLoop fileName i (osRename fs src dst)
    (res.1, Eff.renameFile src dst :: res.2)

/-- Model of `RotatingFileHandler.doRollover`.  `statOk` tells whether
`h.fd.Stat()` succeeds (an environmental condition); on failure the method
returns at once and no rotation happens. -/
def doRollover (h : RotatingFileHandler) (fs : FS) (statOk : Bool) :
    FS × List Eff :=
  if !statOk then (fs, [Eff.statCall])
  else if h.maxBytes ≤ 0 then (fs, [Eff.statCall])
  else if fileSize fs h.fileName < h.maxBytes then (fs, [Eff.statCall])
  else if h.backupCount > 0 then
    let res := shiftLoop h.fileName (h.backupCount - 1).toNat fs
    let fs1 := osRename res.1 h.fileName (backupName h.fileName 1)
    let fs2 := openAppend fs1 h.fileName
    (fs2, Eff.statCall :: Eff.closeFd :: res.2 ++
      [Eff.renameFile h.fileName (backupName h.fileName 1),
       Eff.openFile h.fileName])
  else (fs, [Eff.statCall])

/-- Model of `RotatingFileHandler.Write`: `doRollover` then `h.fd.Write(p)`. -/
def write (h : RotatingFileHandler) (fs : FS) (statOk : Bool) (data : String) :
    FS × List Eff :=
  let res := doRollover h fs statOk
  (appendFile res.1 h.fileName data, res.2 ++ [Eff.append h.fileName data])

/-- Run a sequence of `Write` calls; each element carries whether its stat
succeeds and the bytes written. -/
def runWrites (h : RotatingFileHandler) : List (Bool × String) → FS → FS × List Eff
  | [], fs => (fs, [])
  | (statOk, data) :: rest, fs =>
    let res := write h fs statOk data
    let res2 := runWrites h rest res.1
    (res2.1, res.2 ++ res2.2)

/-! ### Construction (`NewRotatingFileHandler`)

Go errors are compared by interface equality.  `os.Mkdir` on an existing
directory returns a `*os.PathError` wrapping `syscall.EEXIST`; that value is
a different dynamic type from the sentinel `os.ErrExist`, so the interface
comparison `err != os.ErrExist` in the source is true for it.  The
constructors below keep exactly that distinction. -/

/-- Go error values that the constructor and `Close` can observe.
`mkdirErrExist` is the `*os.PathError` (EEXIST) returned by `os.Mkdir` on an
existing directory; `errExistSentinel` is the distinct sentinel value
`os.ErrExist` the source compares against. -/
inductive GoErr where
  | errExistSentinel
  | mkdirErrExist
  | mkdirOtherErr
  | invalidMaxBytes
  | openErr
  | errClosed
  | errInvalid
deriving DecidableEq, Repr

/-- Environmental conditions for a `NewRotatingFileHandler` call. -/
structure ConstructEnv where
  dirExists : Bool
  canCreateDir : Bool
  canOpenFile : Bool
deriving DecidableEq, Repr

/-- Model of `os.Mkdir(dir, 0775)` on the parent directory of the log file. -/
def osMkdir (env : ConstructEnv) : Option GoErr :=
  if env.dirExists then some GoErr.mkdirErrExist
  else if env.canCreateDir then none
  else some GoErr.mkdirOtherErr

/-- Steps of `NewRotatingFileHandler` after the mkdir guard: the
`maxBytes <= 0` check, the field assignments, and the `os.OpenFile` call. -/
def newHandlerAfterMkdir (env : ConstructEnv) (fileName : String)
    (maxBytes backupCount : Int) : Except GoErr RotatingFileHandler :=
  if maxBytes ≤ 0 then Except.error GoErr.invalidMaxBytes
  else if env.canOpenFile then
    Except.ok { fileName := fileName, maxBytes := maxBytes,
                backupCount := backupCount }
  else Except.error GoErr.openErr

/-- Model of `NewRotatingFileHandler`: mkdir with the `err != nil && err !=
os.ErrExist` guard, then the `maxBytes <= 0` check, then the open. -/
def NewRotatingFileHandler (env : ConstructEnv) (fileName : String)
    (maxBytes backupCount : Int) : Except GoErr RotatingFileHandler :=
  match osMkdir env with
  | some e =>
    if e ≠ GoErr.errExistSentinel then Except.error e
    else newHandlerAfterMkdir env fileName maxBytes backupCount
  | none => newHandlerAfterMkdir env fileName maxBytes backupCount

/-! ### Close -/

/-- Runtime state of the `fd` field for the `Close` model: the pointer can be
nil, and a non-nil `*os.File` is either still open or already closed. -/
structure FdState where
  isNil : Bool
  closed : Bool
deriving DecidableEq, Repr

/-- Model of `(*os.File).Close`: on an already-closed file it returns an
`ErrClosed` path error; on a nil receiver it returns `ErrInvalid`. -/
def fileClose (s : FdState) : Option GoErr × FdState :=
  if s.isNil then (some GoErr.errInvalid, s)
  else if s.closed then (some GoErr.errClosed, s)
  else (none, { s with closed := true })

/-- Model of `RotatingFileHandler.Close`: `if h.fd != nil { return
h.fd.Close() }; return nil`.  Note the source does not reset `h.fd` to nil
after closing. -/
def rfhClose (s : FdState) : Option GoErr × FdState :=
  if !s.isNil then fileClose s
  else (none, s)

/-! ### Message formatting (`fmt.Sprintf` / `fmt.Sprint`)

A small model of Go formatting, faithful for the verbs `%d`, `%s`, `%v` and
for operands that are ints, strings, or `[]interface` slices of those (which
is all the logger's call surface uses).  A slice operand formats its elements
with the verb, space-separated, in square brackets; a verb with no remaining
operand renders as the MISSING marker, exactly as `fmt` does. -/

/-- Operand values passed to the formatting functions. -/
inductive GoVal where
  | int (n : Int)
  | str (s : String)
  | slice (vs : List GoVal)

/-- Whether the operand is a Go string (used by `fmt.Sprint` spacing). -/
def GoVal.isStr : GoVal → Bool
  | .str _ => true
  | _ => false

mutual

/-- Render one operand under a verb character. -/
def renderVal (verb : Char) : GoVal → String
  | .int n => if verb = 's' then "%!s(int=" ++ toString n ++ ")" else toString n
  | .str s => if verb = 'd' then "%!d(string=" ++ s ++ ")" else s
  | .slice vs => "[" ++ renderList verb vs ++ "]"

/-- Render slice elements, space-separated. -/
def renderList (verb : Char) : List GoVal → String
  | [] => ""
  | [v] => renderVal verb v
  | v :: w :: rest => renderVal verb v ++ " " ++ renderList verb (w :: rest)

end

/-- Core of `fmt.Sprintf` over the format's characters and the operand
list. -/
def sprintfAux : List Char → List GoVal → String
  | [], [] => ""
  | [], v :: rest => "%!(EXTRA " ++ renderList 'v' (v :: rest) ++ ")"
  | '%' :: c :: restFmt, args =>
    if c = '%' then "%" ++ sprintfAux restFmt args
    else
      match args with
      | [] => "%!" ++ String.singleton c ++ "(MISSING)" ++ sprintfAux restFmt []
      | a :: rest => renderVal c a ++ sprintfAux restFmt rest
  | ['%'], _ => "%!(NOVERB)"
  | c :: restFmt, args => String.singleton c ++ sprintfAux restFmt args

/-- Model of `fmt.Sprintf(format, operands...)`. -/
def sprintf (format : String) (args : List GoVal) : String :=
  sprintfAux format.data args

/-- Model of `fmt.Sprint(operands...)`: concatenation, with a space between
adjacent operands when neither is a string. -/
def goSprint : List GoVal → String
  | [] => ""
  | [v] => renderVal 'v' v
  | v :: w :: rest =>
    renderVal 'v' v ++ (if v.isStr || w.isStr then "" else " ") ++
      goSprint (w :: rest)

/-- Message built by `Debug`/`Info`/`Warn`/`Fatalf`:
`fmt.Sprintf(format, a...)` spreads the argument slice into one operand per
element. -/
def variadicMessage (format : String) (args : List GoVal) : String :=
  sprintf format args

/-- Message built by `Errorf` in the source: `fmt.Sprintf(format, a)` passes
the whole argument slice as a single operand. -/
def ErrorfMessage (format : String) (args : List GoVal) : String :=
  sprintf format [GoVal.slice args]

/-! ### Level wiring (`doLogging`) -/

/-- The level bitmask constants. -/
def LevelDebug : Int := 1

/-- Info level bit. -/
def LevelInfo : Int := 2

/-- Warn level bit. -/
def LevelWarn : Int := 4

/-- Error level bit. -/
def LevelError : Int := 8

/-- The five channel handles built by `doLogging`; each is the ordered list
of destinations its `io.Writer` reaches (empty list = `ioutil.Discard`). -/
structure Handles where
  debugH : List Dest
  infoH : List Dest
  warnH : List Dest
  errorH : List Dest
  fatalH : List Dest
deriving DecidableEq, Repr

/-- The `switch logLevel` of `doLogging` with its `fallthrough` chain
unfolded: case `LevelDebug` sets the debug handle and falls through to all
following cases, and so on; a value matching no case leaves every handle as
`ioutil.Discard`. -/
def consoleHandles (logLevel : Int) : Handles :=
  { debugH := if logLevel = LevelDebug then [Dest.stdout] else []
    infoH := if logLevel = LevelDebug ∨ logLevel = LevelInfo then [Dest.stdout] else []
    warnH := if logLevel = LevelDebug ∨ logLevel = LevelInfo ∨ logLevel = LevelWarn then
        [Dest.stdout] else []
    errorH := if logLevel = LevelDebug ∨ logLevel = LevelInfo ∨ logLevel = LevelWarn ∨
        logLevel = LevelError then [Dest.stderr] else []
    fatalH := if logLevel = LevelDebug ∨ logLevel = LevelInfo ∨ logLevel = LevelWarn ∨
        logLevel = LevelError then [Dest.stderr] else [] }

/-- The file fan-out of `doLogging`: when a file name is configured, each
handle still equal to its console stream is replaced by
`io.MultiWriter(fileHandler, handle)`. -/
def doLoggingHandles (logLevel : Int) (hasFile : Bool) : Handles :=
  let hs := consoleHandles logLevel
  if hasFile then
    { debugH := if hs.debugH = [Dest.stdout] then Dest.file :: hs.debugH else hs.debugH
      infoH := if hs.infoH = [Dest.stdout] then Dest.file :: hs.infoH else hs.infoH
      warnH := if hs.warnH = [Dest.stdout] then Dest.file :: hs.warnH else hs.warnH
      errorH := if hs.errorH = [Dest.stderr] then Dest.file :: hs.errorH else hs.errorH
      fatalH := if hs.fatalH = [Dest.stderr] then Dest.file :: hs.fatalH else hs.fatalH }
  else hs

/-- The four public logging severities gated by the level. -/
inductive Sev where
  | debug
  | info
  | warn
  | error
deriving DecidableEq, Repr, Fintype

/-- Bitmask rank of a severity (the `LevelXxx` constant of the same name). -/
def sevRank : Sev → Int
  | .debug => LevelDebug
  | .info => LevelInfo
  | .warn => LevelWarn
  | .error => LevelError

/-- Handle used by the severity's package-level function (`Debug` writes to
the debug handle, ..., `Error`/`Errorf` to the error handle). -/
def sinkFor (hs : Handles) : Sev → List Dest
  | .debug => hs.debugH
  | .info => hs.infoH
  | .warn => hs.warnH
  | .error => hs.errorH

/-- Output produced by writing one message to a handle: one line per
destination the handle fans out to. -/
def logOutputs (sink : List Dest) (msg : String) : List (Dest × String) :=
  sink.map fun d => (d, msg)

/-! ### Fatal path -/

/-- Effects of `Sync()`: syncs the file handler's fd only when a log file is
configured (`defaultLogger.LogFile != nil`). -/
def syncEffs (hasFile : Bool) : List Eff :=
  if hasFile then [Eff.syncFd] else []

/-- Effects of writing one message to a fan-out handle. -/
def outputEffs (sink : List Dest) (msg : String) : List Eff :=
  sink.map fun d => Eff.emit d msg

/-- Effect trace of `Fatal(a...)`: write `fmt.Sprint(a...)` to the fatal
logger's handle, then `Sync()`, then `os.Exit(255)`. -/
def FatalEffs (fatalSink : List Dest) (hasFile : Bool) (args : List GoVal) :
    List Eff :=
  outputEffs fatalSink (goSprint args) ++ syncEffs hasFile ++ [Eff.exitProc 255]

/-- Effect trace of `Fatalf(format, a...)`: write `fmt.Sprintf(format, a...)`
to the fatal logger's handle, then `Sync()`, then `os.Exit(255)`. -/
def FatalfEffs (fatalSink : List Dest) (hasFile : Bool) (format : String)
    (args : List GoVal) : List Eff :=
  outputEffs fatalSink (variadicMessage format args) ++ syncEffs hasFile ++
    [Eff.exitProc 255]

/-! ### Specification-side model of the backup chain

Modelled from the spec: the abstract state `(active, backups)` holds the
active file's content and the rotated-out contents most-recent-first,
truncated to `backupCount` entries; a rotating write pushes the active
content and truncates, any other write appends. -/

/-- One abstract write step: a rotating write pushes the active content onto
the backup list (truncated to `backupCount` entries, evicting the oldest) and
starts the active file over with the new data; any other write appends. -/
def specStep (maxBytes backupCount : Int) (statOk : Bool) (data : String) :
    String × List String → String × List String
  | (act, bks) =>
    if statOk = true ∧ maxBytes ≤ (act.length : Int) ∧ 0 < backupCount then
      (data, (act :: bks).take backupCount.toNat)
    else (act ++ data, bks)

/-- Abstract backup-chain evolution, following the words of the spec's backup
chain invariant (used as the refinement target for the concrete runs). -/
def specBackupChain (maxBytes backupCount : Int) :
    List (Bool × String) → String × List String → String × List String
  | [], st => st
  | (statOk, data) :: rest, st =>
    specBackupChain maxBytes backupCount rest
      (specStep maxBytes backupCount statOk data st)

/-- Value of backup slot `j` after the shift loop ran from index `k` down
to 1, given the slot values `g` before the loop. -/
def shiftSpec (g : Nat → Option String) (k j : Nat) : Option String :=
  if k = 0 then g j
  else if j = 1 then none
  else if j ≤ k then g (j - 1)
  else if j = k + 1 then (if (g k).isSome then g k else g (k + 1))
  else g j

/-- One loop iteration `os.Rename(name.(k+1), name.(k+2))` in terms of slot
values. -/
def gStep (g : Nat → Option String) (k : Nat) : Nat → Option String :=
  fun i =>
    if i = k + 1 then none
    else if i = k + 2 then (if (g (k + 1)).isSome then g (k + 1) else g (k + 2))
    else g i

/-! ### The rotation and the backup-chain invariant -/

/-- Relation between a filesystem and the abstract chain state: the active
file holds `act`, backup slot `i` holds the `i`-th most recent rotated-out
content, and at most `backupCount` backups exist. -/
def ChainInv (h : RotatingFileHandler) (fs : FS) (act : String)
    (bks : List String) : Prop :=
  fs h.fileName = some act ∧
    (∀ i, 1 ≤ i → fs (backupName h.fileName i) = bks[i - 1]?) ∧
    bks.length ≤ h.backupCount.toNat

/-! ### Append-only behavior (no rotation) -/

/-- Concatenation of the data of a write sequence. -/
def concatWrites : List (Bool × String) → String
  | [] => ""
  | w :: rest => w.2 ++ concatWrites rest

/-- The effect trace of a write sequence that never rotates: each call stats
and appends, nothing else. -/
def appendOnlyTrace (fileName : String) : List (Bool × String) → List Eff
  | [] => []
  | w :: rest =>
    Eff.statCall :: Eff.append fileName w.2 :: appendOnlyTrace fileName rest

/-! ### Sample inputs used by witnesses and counterexamples -/

/-- Handler with a 1-byte threshold and three backups. -/
def sampleH : RotatingFileHandler :=
  { fileName := "a", maxBytes := 1, backupCount := 3 }

/-- Initial filesystem: the active file holds the content written before the
first rotation, no backups exist. -/
def sampleFS : FS := fun q => if q = "a" then some "1" else none

/-- Four writes, each triggering a rotation (every content has length 1 and
the threshold is 1). -/
def sampleWrites : List (Bool × String) :=
  [(true, "2"), (true, "3"), (true, "4"), (true, "5")]

/-- Handler with rotation disabled (`backupCount = 0`). -/
def sampleH0 : RotatingFileHandler :=
  { fileName := "b", maxBytes := 1, backupCount := 0 }

/-- Initial filesystem for the no-rotation scenarios. -/
def sampleFS0 : FS := fun q => if q = "b" then some "x" else none

theorem foldl_digits_init (ds : List Char) :
    ∀ a : Nat, ds.foldl (fun a c => 10 * a + decDigitVal c) a =
      10 ^ ds.length * a + valOfDigits ds := by
  induction ds with
  | nil => intro a; simp [valOfDigits]
  | cons c rest ih =>
    intro a
    simp only [List.foldl_cons, valOfDigits, List.length_cons]
    rw [ih (10 * a + decDigitVal c), ih (10 * 0 + decDigitVal c)]
    ring

theorem valOfDigits_append_singleton (ds : List Char) (c : Char) :
    valOfDigits (ds ++ [c]) = 10 * valOfDigits ds + decDigitVal c := by
  simp [valOfDigits, List.foldl_append]

theorem decDigitVal_digitChar {d : Nat} (h : d < 10) :
    decDigitVal (Nat.digitChar d) = d := by
  interval_cases d <;> rfl

theorem toDigitsCore_acc (fuel n : Nat) :
    ∀ acc : List Char,
      Nat.toDigitsCore 10 fuel n acc = Nat.toDigitsCore 10 fuel n [] ++ acc := by
  induction fuel generalizing n with
  | zero => intro acc; simp [Nat.toDigitsCore]
  | succ fuel ih =>
    intro acc
    simp only [Nat.toDigitsCore]
    by_cases h : n / 10 = 0
    · simp [h]
    · simp only [h, if_false]
      rw [ih (n / 10) [Nat.digitChar (n % 10)], ih (n / 10) (Nat.digitChar (n % 10) :: acc)]
      simp

theorem valOfDigits_toDigitsCore (fuel : Nat) :
    ∀ n : Nat, n < 10 ^ fuel →
      valOfDigits (Nat.toDigitsCore 10 fuel n []) = n := by
  induction fuel with
  | zero =>
    intro n h
    have hn : n = 0 := by omega
    subst hn
    simp [Nat.toDigitsCore, valOfDigits]
  | succ fuel ih =>
    intro n h
    simp only [Nat.toDigitsCore]
    by_cases hdiv : n / 10 = 0
    · have hn : n < 10 := by omega
      have hmod : n % 10 = n := Nat.mod_eq_of_lt hn
      simp only [hdiv, if_true, valOfDigits, List.foldl_cons, List.foldl_nil, hmod]
      have := decDigitVal_digitChar hn
      omega
    · simp only [hdiv, if_false]
      rw [toDigitsCore_acc fuel (n / 10) [Nat.digitChar (n % 10)]]
      rw [valOfDigits_append_singleton]
      have h10 : n / 10 < 10 ^ fuel := by
        have hpow : (10 : Nat) ^ (fuel + 1) = 10 * 10 ^ fuel := by ring
        rw [hpow] at h
        exact Nat.div_lt_of_lt_mul h
      rw [ih (n / 10) h10, decDigitVal_digitChar (Nat.mod_lt n (by omega))]
      omega

theorem valOfDigits_toDigits (n : Nat) :
    valOfDigits (Nat.toDigits 10 n) = n := by
  have h : n < 10 ^ (n + 1) := by
    calc n < n + 1 := Nat.lt_succ_self n
    _ ≤ 10 ^ (n + 1) := Nat.le_of_lt (Nat.lt_pow_self (by omega) (n + 1))
  exact valOfDigits_toDigitsCore (n + 1) n h

theorem natRepr_injective : Function.Injective Nat.repr := by
  intro m n h
  have hd : Nat.toDigits 10 m = Nat.toDigits 10 n := by
    have := congrArg String.data h
    simpa [Nat.repr, List.asString] using this
  have := congrArg valOfDigits hd
  rwa [valOfDigits_toDigits, valOfDigits_toDigits] at this

theorem backupName_ne_base (fileName : String) (i : Nat) :
    backupName fileName i ≠ fileName := by
  intro h
  have hd := congrArg String.data h
  simp only [backupName, String.data_append] at hd
  have := congrArg List.length hd
  simp only [List.length_append, List.length_singleton] at this
  omega

theorem backupName_inj (fileName : String) {i j : Nat}
    (h : backupName fileName i = backupName fileName j) : i = j := by
  apply natRepr_injective
  have hd := congrArg String.data h
  simp only [backupName, String.data_append] at hd
  exact String.ext (List.append_cancel_left hd)

/-! ### Pointwise lemmas about the filesystem operations -/

theorem fsWrite_apply (fs : FS) (p c q : String) :
    fsWrite fs p c q = if q = p then some c else fs q := rfl

theorem osRename_apply (fs : FS) (src dst q : String) :
    osRename fs src dst q =
      match fs src with
      | none => fs q
      | some c => if q = dst then some c else if q = src then none else fs q := by
  unfold osRename
  cases fs src <;> rfl

theorem osRename_apply_other (fs : FS) (src dst q : String)
    (h1 : q ≠ src) (h2 : q ≠ dst) : osRename fs src dst q = fs q := by
  rw [osRename_apply]
  cases fs src <;> simp [h1, h2]

theorem appendFile_apply_other (fs : FS) (p data q : String) (h : q ≠ p) :
    appendFile fs p data q = fs q := by
  simp [appendFile, fsWrite_apply, h]

theorem appendFile_apply_self (fs : FS) (p data : String) :
    appendFile fs p data p = some (((fs p).getD "") ++ data) := by
  simp [appendFile, fsWrite_apply]

theorem openAppend_apply_other (fs : FS) (p q : String) (h : q ≠ p) :
    openAppend fs p q = fs q := by
  unfold openAppend
  cases fs p <;> simp [fsWrite_apply, h]

theorem backupName_eq_iff (fileName : String) (i j : Nat) :
    backupName fileName i = backupName fileName j ↔ i = j :=
  ⟨backupName_inj fileName, fun h => by rw [h]⟩

/-! ### The shift loop -/

/-- The effect trace of the shift loop: renames from index `k` down to 1. -/
theorem shiftLoop_effs (fileName : String) :
    ∀ (k : Nat) (fs : FS),
      (shiftLoop fileName k fs).2 =
        (List.range k).reverse.map
          (fun i => Eff.renameFile (backupName fileName (i + 1))
            (backupName fileName (i + 2))) := by
  intro k
  induction k with
  | zero => intro fs; simp [shiftLoop]
  | succ k ih =>
    intro fs
    simp only [shiftLoop, ih, List.range_succ, List.reverse_append,
      List.reverse_cons, List.reverse_nil, List.nil_append, List.map_cons,
      List.cons_append]

/-- The shift loop touches only backup names. -/
theorem shiftLoop_apply_nonbackup (fileName : String) :
    ∀ (k : Nat) (fs : FS) (q : String),
      (∀ i, 1 ≤ i → q ≠ backupName fileName i) →
      (shiftLoop fileName k fs).1 q = fs q := by
  intro k
  induction k with
  | zero => intro fs q _; rfl
  | succ k ih =>
    intro fs q hq
    simp only [shiftLoop]
    rw [ih _ q hq, osRename_apply_other]
    · exact hq (k + 1) (by omega)
    · exact hq (k + 2) (by omega)

theorem osRename_backup_apply (fileName : String) (fs : FS)
    (g : Nat → Option String) (k : Nat)
    (hg : ∀ i, 1 ≤ i → fs (backupName fileName i) = g i) (i : Nat)
    (hi : 1 ≤ i) :
    osRename fs (backupName fileName (k + 1)) (backupName fileName (k + 2))
      (backupName fileName i) = gStep g k i := by
  rw [osRename_apply, hg (k + 1) (by omega)]
  unfold gStep
  rcases hcase : g (k + 1) with _ | c
  · simp only [Option.isSome_none, Bool.false_eq_true, if_false]
    rw [hg i hi]
    split_ifs with h1 h2
    · rw [h1]; exact hcase
    · rw [h2]
    · rfl
  · simp only [backupName_eq_iff, Option.isSome_some, if_true]
    by_cases h1 : i = k + 2
    · have h2 : ¬ i = k + 1 := by omega
      simp [h1, h2]
    · by_cases h2 : i = k + 1
      · simp [h1, h2]
      · simp [h1, h2, hg i hi]

theorem shiftSpec_step (g : Nat → Option String) (k j : Nat) (hj : 1 ≤ j) :
    shiftSpec (gStep g k) k j = shiftSpec g (k + 1) j := by
  unfold shiftSpec gStep
  rcases Nat.eq_zero_or_pos k with hk | hk
  · subst hk
    simp only [if_true, reduceIte]
    split_ifs <;> first
    | (simp_all; omega)
    | simp_all
  · have hkne : ¬ k = 0 := by omega
    have hkne1 : ¬ k + 1 = 0 := by omega
    simp only [hkne, hkne1, if_false]
    by_cases h1 : j = 1
    · simp [h1]
    · simp only [h1, if_false]
      by_cases h2 : j ≤ k
      · have e1 : ¬ j - 1 = k + 1 := by omega
        have e2 : ¬ j - 1 = k + 2 := by omega
        have e3 : j ≤ k + 1 := by omega
        simp [h2, e1, e2, e3]
      · simp only [h2, if_false]
        by_cases h3 : j = k + 1
        · have e1 : j ≤ k + 1 := by omega
          have e2 : ¬ k = k + 1 := by omega
          have e3 : ¬ k = k + 2 := by omega
          have e4 : j - 1 = k := by omega
          simp only [h3, if_true, e1, e4, e2, e3, if_false, reduceIte]
          rcases hcase : g k with _ | c
          · simp [hcase]
          · simp [hcase]
        · simp only [h3, if_false]
          by_cases h4 : j = k + 2
          · have e1 : ¬ j ≤ k + 1 := by omega
            have e2 : j = k + 1 + 1 := by omega
            simp [h4, e1, e2]
          · have e1 : ¬ j ≤ k + 1 := by omega
            have e2 : ¬ j = k + 1 + 1 := by omega
            have e3 : ¬ j = k + 1 := by omega
            have e4 : ¬ j = k + 2 := by omega
            simp [e1, e2, e3, e4, h2]

/-- Value of each backup slot after the whole shift loop. -/
theorem shiftLoop_backup_apply (fileName : String) :
    ∀ (k : Nat) (fs : FS) (g : Nat → Option String),
      (∀ i, 1 ≤ i → fs (backupName fileName i) = g i) →
      ∀ j, 1 ≤ j →
        (shiftLoop fileName k fs).1 (backupName fileName j) =
          shiftSpec g k j := by
  intro k
  induction k with
  | zero =>
    intro fs g hg j hj
    simpa [shiftLoop, shiftSpec] using hg j hj
  | succ k ih =>
    intro fs g hg j hj
    simp only [shiftLoop]
    rw [ih _ (gStep g k) (fun i hi => osRename_backup_apply fileName fs g k hg i hi) j hj]
    exact shiftSpec_step g k j hj

theorem ne_backupName (fileName : String) (i : Nat) :
    fileName ≠ backupName fileName i :=
  fun h => backupName_ne_base fileName i h.symm

theorem chain_take_get (act : String) (bks : List String) (N j : Nat)
    (hN : 1 ≤ N) (hlen : bks.length ≤ N) (hj : 1 ≤ j) :
    ((act :: bks).take N)[j - 1]? =
      if j = 1 then some act else if j ≤ N then bks[j - 2]? else none := by
  by_cases h1 : j = 1
  · subst h1
    obtain ⟨m, rfl⟩ : ∃ m, N = m + 1 := ⟨N - 1, by omega⟩
    simp [List.take_succ_cons]
  · simp only [h1, if_false]
    by_cases h2 : j ≤ N
    · have hlt : j - 1 < N := by omega
      rw [List.getElem?_take_of_lt hlt]
      obtain ⟨m, rfl⟩ : ∃ m, j = m + 2 := ⟨j - 2, by omega⟩
      simp [h2]
    · have : ((act :: bks).take N).length ≤ j - 1 := by
        have := List.length_take_le N (act :: bks)
        omega
      simp [h2, List.getElem?_eq_none this]

theorem shiftSpec_chain (bks : List String) (N j : Nat) (hN : 1 ≤ N)
    (hlen : bks.length ≤ N) (hj : 2 ≤ j) :
    shiftSpec (fun i => bks[i - 1]?) (N - 1) j =
      if j ≤ N then bks[j - 2]? else none := by
  unfold shiftSpec
  by_cases hk : N - 1 = 0
  · have hN1 : N = 1 := by omega
    have hnone : bks[j - 1]? = none := List.getElem?_eq_none (by omega)
    simp [hk, hN1, hnone, show ¬ j ≤ 1 by omega]
  · have h1 : ¬ j = 1 := by omega
    simp only [hk, h1, if_false]
    by_cases h2 : j ≤ N - 1
    · have e1 : j ≤ N := by omega
      have e2 : j - 1 - 1 = j - 2 := by omega
      simp [h2, e1, e2]
    · simp only [h2, if_false]
      by_cases h3 : j = N - 1 + 1
      · have h3N : j = N := by omega
        subst h3N
        rw [if_pos (by omega : j = j - 1 + 1), if_pos (le_refl j)]
        have e2 : j - 1 - 1 = j - 2 := by omega
        have e3 : j - 1 + 1 - 1 = j - 1 := by omega
        rw [e2, e3]
        rcases hcase : bks[j - 2]? with _ | c
        · have hlen2 : bks.length ≤ j - 2 := by
            by_contra hcon
            push_neg at hcon
            rw [List.getElem?_eq_getElem hcon] at hcase
            exact Option.noConfusion hcase
          have h4 : bks[j - 1]? = none := List.getElem?_eq_none (by omega)
          simp [h4]
        · simp
      · have e1 : ¬ j ≤ N := by omega
        have hnone : bks[j - 1]? = none := List.getElem?_eq_none (by omega)
        simp [h3, e1, hnone]

theorem doRollover_skip (h : RotatingFileHandler) (fs : FS) (statOk : Bool)
    (hmb : 0 < h.maxBytes)
    (hcond : ¬(statOk = true ∧ h.maxBytes ≤ fileSize fs h.fileName)) :
    doRollover h fs statOk = (fs, [Eff.statCall]) := by
  unfold doRollover
  cases statOk
  · rfl
  · have hsz : fileSize fs h.fileName < h.maxBytes := by
      rcases not_and_or.mp hcond with hc | hc
      · exact absurd rfl hc
      · omega
    simp [hsz, show ¬ h.maxBytes ≤ 0 by omega]

theorem doRollover_noBackups (h : RotatingFileHandler) (fs : FS)
    (statOk : Bool) (hbc : h.backupCount ≤ 0) :
    doRollover h fs statOk = (fs, [Eff.statCall]) := by
  unfold doRollover
  cases statOk
  · rfl
  · by_cases hmb : h.maxBytes ≤ 0
    · simp [hmb]
    · by_cases hsz : fileSize fs h.fileName < h.maxBytes
      · simp [hmb, hsz]
      · simp [hmb, hsz, show ¬ h.backupCount > 0 by omega]

theorem doRollover_rotate_eq (h : RotatingFileHandler) (fs : FS)
    (hmb : 0 < h.maxBytes) (hN : 0 < h.backupCount)
    (hsize : h.maxBytes ≤ fileSize fs h.fileName) :
    doRollover h fs true =
      (openAppend
        (osRename (shiftLoop h.fileName (h.backupCount - 1).toNat fs).1
          h.fileName (backupName h.fileName 1)) h.fileName,
       Eff.statCall :: Eff.closeFd ::
         (shiftLoop h.fileName (h.backupCount - 1).toNat fs).2 ++
         [Eff.renameFile h.fileName (backupName h.fileName 1),
          Eff.openFile h.fileName]) := by
  unfold doRollover
  simp [show ¬ h.maxBytes ≤ 0 by omega, show ¬ fileSize fs h.fileName < h.maxBytes by omega, hN]

/-- Effect of a rotation on the filesystem, stated against the abstract
chain: the active file is reopened empty and the backups are the previous
chain with `act` pushed in front, truncated to `backupCount`. -/
theorem rotate_chain (h : RotatingFileHandler) (fs : FS) (act : String)
    (bks : List String) (hN : 0 < h.backupCount) (hmb : 0 < h.maxBytes)
    (hInv : ChainInv h fs act bks) (hsize : h.maxBytes ≤ (act.length : Int)) :
    (doRollover h fs true).1 h.fileName = some "" ∧
      ∀ i, 1 ≤ i → (doRollover h fs true).1 (backupName h.fileName i) =
        ((act :: bks).take h.backupCount.toNat)[i - 1]? := by
  obtain ⟨hact, hbks, hlen⟩ := hInv
  have hsz : h.maxBytes ≤ fileSize fs h.fileName := by
    rw [fileSize, hact]; simpa using hsize
  have hfs2 : (doRollover h fs true).1 =
      openAppend
        (osRename (shiftLoop h.fileName (h.backupCount - 1).toNat fs).1
          h.fileName (backupName h.fileName 1)) h.fileName := by
    rw [doRollover_rotate_eq h fs hmb hN hsz]
  have hkN : (h.backupCount - 1).toNat = h.backupCount.toNat - 1 := by omega
  have hN1 : 1 ≤ h.backupCount.toNat := by omega
  have hbase :
      (shiftLoop h.fileName (h.backupCount - 1).toNat fs).1 h.fileName =
        some act := by
    rw [shiftLoop_apply_nonbackup h.fileName _ fs h.fileName
      (fun i _ => ne_backupName h.fileName i)]
    exact hact
  have hshift : ∀ j, 1 ≤ j →
      (shiftLoop h.fileName (h.backupCount - 1).toNat fs).1
          (backupName h.fileName j) =
        shiftSpec (fun i => bks[i - 1]?) (h.backupCount - 1).toNat j :=
    shiftLoop_backup_apply h.fileName (h.backupCount - 1).toNat fs
      (fun i => bks[i - 1]?) hbks
  constructor
  · have h1 : osRename (shiftLoop h.fileName (h.backupCount - 1).toNat fs).1
        h.fileName (backupName h.fileName 1) h.fileName = none := by
      rw [osRename_apply, hbase]
      simp [ne_backupName h.fileName 1]
    rw [hfs2]
    unfold openAppend
    rw [h1]
    simp [fsWrite_apply]
  · intro i hi
    have hne : backupName h.fileName i ≠ h.fileName :=
      backupName_ne_base h.fileName i
    rw [hfs2, openAppend_apply_other _ _ _ hne]
    rw [chain_take_get act bks h.backupCount.toNat i hN1 hlen hi]
    by_cases h1 : i = 1
    · subst h1
      rw [osRename_apply, hbase]
      simp
    · have hne1 : backupName h.fileName i ≠ backupName h.fileName 1 := by
        rw [Ne, backupName_eq_iff]; exact h1
      rw [osRename_apply_other _ _ _ _ hne hne1]
      rw [hshift i hi, hkN,
        shiftSpec_chain bks h.backupCount.toNat i hN1 hlen (by omega)]
      simp [h1]

/-- A single `Write` call transforms the concrete filesystem exactly as the
abstract chain step transforms the abstract state. -/
theorem write_step_chain (h : RotatingFileHandler) (fs : FS) (act : String)
    (bks : List String) (statOk : Bool) (data : String)
    (hN : 0 < h.backupCount) (hmb : 0 < h.maxBytes)
    (hInv : ChainInv h fs act bks) :
    ChainInv h (write h fs statOk data).1
      (specStep h.maxBytes h.backupCount statOk data (act, bks)).1
      (specStep h.maxBytes h.backupCount statOk data (act, bks)).2 := by
  obtain ⟨hact, hbks, hlen⟩ := hInv
  by_cases hc : statOk = true ∧ h.maxBytes ≤ (act.length : Int)
  · obtain ⟨hstat, hsize⟩ := hc
    subst hstat
    have hrot := rotate_chain h fs act bks hN hmb ⟨hact, hbks, hlen⟩ hsize
    have hstep : specStep h.maxBytes h.backupCount true data (act, bks) =
        (data, (act :: bks).take h.backupCount.toNat) := by
      simp [specStep, hsize, hN]
    rw [hstep]
    refine ⟨?_, ?_, ?_⟩
    · show appendFile (doRollover h fs true).1 h.fileName data h.fileName = _
      rw [appendFile_apply_self, hrot.1]
      simp
    · intro i hi
      show appendFile (doRollover h fs true).1 h.fileName data
        (backupName h.fileName i) = _
      rw [appendFile_apply_other _ _ _ _ (backupName_ne_base h.fileName i)]
      exact hrot.2 i hi
    · exact le_trans (List.length_take_le _ _) (le_refl _)
  · have hstep : specStep h.maxBytes h.backupCount statOk data (act, bks) =
        (act ++ data, bks) := by
      simp only [specStep]
      rw [if_neg]
      intro hcon
      exact hc ⟨hcon.1, hcon.2.1⟩
    have hskip : doRollover h fs statOk = (fs, [Eff.statCall]) := by
      apply doRollover_skip h fs statOk hmb
      intro hcon
      apply hc
      refine ⟨hcon.1, ?_⟩
      have := hcon.2
      rw [fileSize, hact] at this
      simpa using this
    rw [hstep]
    refine ⟨?_, ?_, hlen⟩
    · show appendFile (doRollover h fs statOk).1 h.fileName data h.fileName = _
      rw [hskip, appendFile_apply_self]
      simp [hact]
    · intro i hi
      show appendFile (doRollover h fs statOk).1 h.fileName data
        (backupName h.fileName i) = _
      rw [hskip, appendFile_apply_other _ _ _ _ (backupName_ne_base h.fileName i)]
      exact hbks i hi

/-- The concrete run of any write sequence refines the abstract backup-chain
evolution. -/
theorem runWrites_chain (h : RotatingFileHandler)
    (writes : List (Bool × String)) :
    ∀ (fs : FS) (act : String) (bks : List String),
      0 < h.backupCount → 0 < h.maxBytes → ChainInv h fs act bks →
      ChainInv h (runWrites h writes fs).1
        (specBackupChain h.maxBytes h.backupCount writes (act, bks)).1
        (specBackupChain h.maxBytes h.backupCount writes (act, bks)).2 := by
  induction writes with
  | nil => intro fs act bks _ _ hInv; exact hInv
  | cons w rest ih =>
    intro fs act bks hN hmb hInv
    obtain ⟨statOk, data⟩ := w
    have hstep := write_step_chain h fs act bks statOk data hN hmb hInv
    have := ih (write h fs statOk data).1
      (specStep h.maxBytes h.backupCount statOk data (act, bks)).1
      (specStep h.maxBytes h.backupCount statOk data (act, bks)).2
      hN hmb hstep
    simpa [runWrites, specBackupChain] using this

/-! ### Write traces -/

theorem closeFd_not_mem_shiftEffs (fileName : String) (k : Nat) (fs : FS) :
    Eff.closeFd ∉ (shiftLoop fileName k fs).2 := by
  rw [shiftLoop_effs]
  simp

theorem write_eq_skip (h : RotatingFileHandler) (fs : FS) (statOk : Bool)
    (data : String)
    (hskip : doRollover h fs statOk = (fs, [Eff.statCall])) :
    write h fs statOk data =
      (appendFile fs h.fileName data,
       [Eff.statCall, Eff.append h.fileName data]) := by
  simp [write, hskip]

theorem write_eq_rotate (h : RotatingFileHandler) (fs : FS) (data : String)
    (hmb : 0 < h.maxBytes) (hN : 0 < h.backupCount)
    (hsize : h.maxBytes ≤ fileSize fs h.fileName) :
    write h fs true data =
      (appendFile (doRollover h fs true).1 h.fileName data,
       Eff.statCall :: Eff.closeFd ::
         ((shiftLoop h.fileName (h.backupCount - 1).toNat fs).2 ++
          [Eff.renameFile h.fileName (backupName h.fileName 1),
           Eff.openFile h.fileName, Eff.append h.fileName data])) := by
  unfold write
  rw [doRollover_rotate_eq h fs hmb hN hsize]
  simp

/-- A handler with a non-positive `backupCount` never rotates: every write
is stat-then-append. -/
theorem write_noRotate (h : RotatingFileHandler) (fs : FS) (statOk : Bool)
    (data : String) (hbc : h.backupCount ≤ 0) :
    write h fs statOk data =
      (appendFile fs h.fileName data,
       [Eff.statCall, Eff.append h.fileName data]) :=
  write_eq_skip h fs statOk data (doRollover_noBackups h fs statOk hbc)

theorem runWrites_noRotate (h : RotatingFileHandler)
    (hbc : h.backupCount ≤ 0) (writes : List (Bool × String)) :
    ∀ (fs : FS) (c0 : String), fs h.fileName = some c0 →
      (runWrites h writes fs).1 h.fileName =
        some (c0 ++ concatWrites writes) ∧
      (∀ q, q ≠ h.fileName → (runWrites h writes fs).1 q = fs q) ∧
      (runWrites h writes fs).2 = appendOnlyTrace h.fileName writes := by
  induction writes with
  | nil =>
    intro fs c0 hc0
    refine ⟨?_, fun q _ => rfl, rfl⟩
    show fs h.fileName = _
    simp [hc0, concatWrites]
  | cons w rest ih =>
    intro fs c0 hc0
    obtain ⟨statOk, data⟩ := w
    have hw := write_noRotate h fs statOk data hbc
    have hself : appendFile fs h.fileName data h.fileName =
        some (c0 ++ data) := by
      rw [appendFile_apply_self, hc0]
      rfl
    have hafter := ih (appendFile fs h.fileName data) (c0 ++ data) hself
    refine ⟨?_, ?_, ?_⟩
    · show (runWrites h ((statOk, data) :: rest) fs).1 h.fileName = _
      simp only [runWrites, hw]
      rw [hafter.1]
      simp [concatWrites, String.append_assoc]
    · intro q hq
      simp only [runWrites, hw]
      rw [hafter.2.1 q hq, appendFile_apply_other fs h.fileName data q hq]
    · simp only [runWrites, hw]
      rw [hafter.2.2]
      simp [appendOnlyTrace]

theorem appendOnlyTrace_shape (fileName : String) :
    ∀ (writes : List (Bool × String)) (e : Eff),
      e ∈ appendOnlyTrace fileName writes →
      e = Eff.statCall ∨ ∃ d, e = Eff.append fileName d := by
  intro writes
  induction writes with
  | nil => intro e he; simp [appendOnlyTrace] at he
  | cons w rest ih =>
    intro e he
    simp only [appendOnlyTrace, List.mem_cons] at he
    rcases he with rfl | he
    · exact Or.inl rfl
    · rcases he with rfl | he
      · exact Or.inr ⟨w.2, rfl⟩
      · exact ih e he

theorem sampleFS_no_backups : ∀ i, 1 ≤ i → sampleFS (backupName "a" i) = none := by
  intro i _
  simp [sampleFS, backupName_ne_base "a" i]

/-! ### Claim theorems -/

/-- C1: every `Write` call stats the file first; rotation is performed
exactly when the stat succeeds, the observed size is at least `maxBytes`,
and `backupCount > 0` (the handler's `maxBytes` is positive, as the
constructor guarantees); in every other case — including a failed stat — the
bytes are appended with no rotation; and at most one rotation occurs per
call even when the file is still over the threshold after rotating. -/
theorem writeRotationPolicy (h : RotatingFileHandler) (fs : FS)
    (statOk : Bool) (data : String) (hmb : 0 < h.maxBytes) :
    (write h fs statOk data).2.head? = some Eff.statCall ∧
    (Eff.closeFd ∈ (write h fs statOk data).2 ↔
      statOk = true ∧ h.maxBytes ≤ fileSize fs h.fileName ∧
        0 < h.backupCount) ∧
    (write h fs statOk data).2.getLast? = some (Eff.append h.fileName data) ∧
    List.count Eff.closeFd (write h fs statOk data).2 ≤ 1 ∧
    (¬(statOk = true ∧ h.maxBytes ≤ fileSize fs h.fileName ∧
        0 < h.backupCount) →
      (write h fs statOk data).1 = appendFile fs h.fileName data ∧
      (write h fs statOk data).2 =
        [Eff.statCall, Eff.append h.fileName data]) := by
  by_cases hcond : statOk = true ∧ h.maxBytes ≤ fileSize fs h.fileName ∧
      0 < h.backupCount
  · obtain ⟨hs, hsz, hN⟩ := hcond
    subst hs
    rw [write_eq_rotate h fs data hmb hN hsz]
    have hnm := closeFd_not_mem_shiftEffs h.fileName (h.backupCount - 1).toNat fs
    refine ⟨rfl, ?_, ?_, ?_, ?_⟩
    · simp [hsz, hN]
    · have hsh : Eff.statCall :: Eff.closeFd ::
          ((shiftLoop h.fileName (h.backupCount - 1).toNat fs).2 ++
           [Eff.renameFile h.fileName (backupName h.fileName 1),
            Eff.openFile h.fileName, Eff.append h.fileName data]) =
          (Eff.statCall :: Eff.closeFd ::
            ((shiftLoop h.fileName (h.backupCount - 1).toNat fs).2 ++
             [Eff.renameFile h.fileName (backupName h.fileName 1),
              Eff.openFile h.fileName])) ++
            [Eff.append h.fileName data] := by simp
      rw [hsh, List.getLast?_concat]
    · have h0 : List.count Eff.closeFd
          (shiftLoop h.fileName (h.backupCount - 1).toNat fs).2 = 0 :=
        List.count_eq_zero.mpr hnm
      rw [List.count_cons_of_ne (by decide), List.count_cons_self,
        List.count_append, h0]
      have h1 : List.count Eff.closeFd
          [Eff.renameFile h.fileName (backupName h.fileName 1),
           Eff.openFile h.fileName, Eff.append h.fileName data] = 0 :=
        List.count_eq_zero.mpr (by simp)
      rw [h1]
    · intro hcon; exact absurd ⟨rfl, hsz, hN⟩ hcon
  · have hskip : doRollover h fs statOk = (fs, [Eff.statCall]) := by
      by_cases hbc : 0 < h.backupCount
      · apply doRollover_skip h fs statOk hmb
        intro hcon
        exact hcond ⟨hcon.1, hcon.2, hbc⟩
      · exact doRollover_noBackups h fs statOk (by omega)
    rw [write_eq_skip h fs statOk data hskip]
    refine ⟨rfl, ?_, rfl, ?_, fun _ => ⟨rfl, rfl⟩⟩
    · simp [hcond]
    · show List.count Eff.closeFd
        [Eff.statCall, Eff.append h.fileName data] ≤ 1
      have h1 : List.count Eff.closeFd
          [Eff.statCall, Eff.append h.fileName data] = 0 :=
        List.count_eq_zero.mpr (by simp)
      omega

/-- Witness for C1: a rotating write on a concrete over-threshold file. -/
theorem writeRotationPolicy_witness :
    (write sampleH sampleFS true "2").2.head? = some Eff.statCall :=
  (writeRotationPolicy sampleH sampleFS true "2" (by decide)).1

/-- C2 counterexample: with `backupCount = 3`, after 4 rotations slot `.3`
holds the content rotated out by rotation #2 (here `"2"`), not rotation #1's
content `"1"` — that content was evicted when the fourth rotation renamed
`.2` over `.3`. -/
theorem rotationShiftOrder_cex :
    (runWrites sampleH sampleWrites sampleFS).1 (backupName "a" 3) =
      some "2" ∧
    ¬ (runWrites sampleH sampleWrites sampleFS).1 (backupName "a" 3) =
      some "1" := by decide

/-- C2 amended: rotation closes the handle, renames `path.i` to `path.(i+1)`
for `i` from `backupCount - 1` down to 1 (missing sources leave the target
untouched), renames `path` to `path.1`, reopens `path`, in exactly that
order; and with `backupCount = 3`, after 4 rotations `.1` holds the fourth
rotation's content, `.2` the third's, and `.3` the second's — the oldest
retained; the first rotation's content has been evicted. -/
theorem rotationShiftOrder (h : RotatingFileHandler) (fs : FS)
    (data : String) (hmb : 0 < h.maxBytes) (hN : 0 < h.backupCount)
    (hsize : h.maxBytes ≤ fileSize fs h.fileName) :
    (write h fs true data).2 =
      Eff.statCall :: Eff.closeFd ::
        ((List.range (h.backupCount - 1).toNat).reverse.map
          (fun i => Eff.renameFile (backupName h.fileName (i + 1))
            (backupName h.fileName (i + 2))) ++
         [Eff.renameFile h.fileName (backupName h.fileName 1),
          Eff.openFile h.fileName, Eff.append h.fileName data]) ∧
    (runWrites sampleH sampleWrites sampleFS).1 (backupName "a" 1) =
      some "4" ∧
    (runWrites sampleH sampleWrites sampleFS).1 (backupName "a" 2) =
      some "3" ∧
    (runWrites sampleH sampleWrites sampleFS).1 (backupName "a" 3) =
      some "2" ∧
    (runWrites sampleH sampleWrites sampleFS).1 "a" = some "5" := by
  refine ⟨?_, by decide, by decide, by decide, by decide⟩
  rw [write_eq_rotate h fs data hmb hN hsize, shiftLoop_effs]

/-- Witness for C2's amended theorem at a concrete rotating write. -/
theorem rotationShiftOrder_witness :
    (write sampleH sampleFS true "2").2 =
      Eff.statCall :: Eff.closeFd ::
        ((List.range (sampleH.backupCount - 1).toNat).reverse.map
          (fun i => Eff.renameFile (backupName sampleH.fileName (i + 1))
            (backupName sampleH.fileName (i + 2))) ++
         [Eff.renameFile sampleH.fileName (backupName sampleH.fileName 1),
          Eff.openFile sampleH.fileName,
          Eff.append sampleH.fileName "2"]) :=
  (rotationShiftOrder sampleH sampleFS "2" (by decide) (by decide)
    (by decide)).1

/-- C3: starting with no backups, after any write sequence, backup slot `i`
holds exactly the `i`-th entry of the abstract chain (most recent rotated-out
content first, truncated to `backupCount` entries, the oldest evicted on
overflow), at most `backupCount` backups exist, and slots beyond
`backupCount` are never created. -/
theorem backupChainInvariant (h : RotatingFileHandler)
    (writes : List (Bool × String)) (fs0 : FS) (act0 : String)
    (hN : 0 < h.backupCount) (hmb : 0 < h.maxBytes)
    (hact : fs0 h.fileName = some act0)
    (hnob : ∀ i, 1 ≤ i → fs0 (backupName h.fileName i) = none) :
    (∀ i, 1 ≤ i →
      (runWrites h writes fs0).1 (backupName h.fileName i) =
        (specBackupChain h.maxBytes h.backupCount writes (act0, [])).2[i - 1]?) ∧
    (specBackupChain h.maxBytes h.backupCount writes (act0, [])).2.length ≤
      h.backupCount.toNat ∧
    (∀ i, h.backupCount.toNat < i →
      (runWrites h writes fs0).1 (backupName h.fileName i) = none) ∧
    (runWrites h writes fs0).1 h.fileName =
      some (specBackupChain h.maxBytes h.backupCount writes (act0, [])).1 := by
  have hInv0 : ChainInv h fs0 act0 [] := by
    refine ⟨hact, ?_, by simp⟩
    intro i hi
    rw [hnob i hi]
    simp
  obtain ⟨ha, hb, hl⟩ := runWrites_chain h writes fs0 act0 [] hN hmb hInv0
  refine ⟨hb, hl, ?_, ha⟩
  intro i hi
  rw [hb i (by omega)]
  exact List.getElem?_eq_none (by omega)

/-- Witness for C3 on a concrete four-rotation run. -/
theorem backupChainInvariant_witness :
    (specBackupChain sampleH.maxBytes sampleH.backupCount sampleWrites
      ("1", [])).2.length ≤ sampleH.backupCount.toNat :=
  (backupChainInvariant sampleH sampleWrites sampleFS "1" (by decide)
    (by decide) (by decide) sampleFS_no_backups).2.1

/-- C4: with `backupCount = 0` no write ever rotates: every call only stats
and appends (no rename, no close, no reopen), no backup file is ever
created, and the active file accumulates every written byte without bound. -/
theorem zeroBackupCountNeverRotates (h : RotatingFileHandler)
    (writes : List (Bool × String)) (fs0 : FS) (c0 : String)
    (hbc : h.backupCount = 0) (hc0 : fs0 h.fileName = some c0) :
    (runWrites h writes fs0).1 h.fileName =
      some (c0 ++ concatWrites writes) ∧
    (∀ q, q ≠ h.fileName → (runWrites h writes fs0).1 q = fs0 q) ∧
    (∀ i, 1 ≤ i → fs0 (backupName h.fileName i) = none →
      (runWrites h writes fs0).1 (backupName h.fileName i) = none) ∧
    (runWrites h writes fs0).2 = appendOnlyTrace h.fileName writes ∧
    (∀ e ∈ (runWrites h writes fs0).2,
      e = Eff.statCall ∨ ∃ d, e = Eff.append h.fileName d) := by
  obtain ⟨h1, h2, h3⟩ := runWrites_noRotate h (by omega) writes fs0 c0 hc0
  refine ⟨h1, h2, ?_, h3, ?_⟩
  · intro i hi hnone
    rw [h2 _ (backupName_ne_base h.fileName i), hnone]
  · intro e he
    rw [h3] at he
    exact appendOnlyTrace_shape h.fileName writes e he

/-- Witness for C4 at a concrete handler with `backupCount = 0`. -/
theorem zeroBackupCountNeverRotates_witness :
    (runWrites sampleH0 [(true, "yy")] sampleFS0).1 sampleH0.fileName =
      some ("x" ++ concatWrites [(true, "yy")]) :=
  (zeroBackupCountNeverRotates sampleH0 [(true, "yy")] sampleFS0 "x"
    (by decide) (by decide)).1

/-- C5 (code bug): when the parent directory already exists, `os.Mkdir`
returns a `*PathError` wrapping `EEXIST`, which the guard
`err != os.ErrExist` does not recognize (the sentinel is a different value),
so `NewRotatingFileHandler` returns that error even though `maxBytes > 0`
and the file could be opened — construction fails instead of treating
"already exists" as success. -/
theorem constructionFailsWhenDirExists :
    NewRotatingFileHandler
        { dirExists := true, canCreateDir := true, canOpenFile := true }
        "logs/app.log" 1024 3 =
      Except.error GoErr.mkdirErrExist := by rfl

/-- C6 counterexample: a second `Close` after a successful `Close` is not a
no-op returning nil: `h.fd` is not reset, so `Close` runs on the
already-closed file and returns the already-closed error. -/
theorem closeIdempotent_cex :
    (rfhClose { isNil := false, closed := false }).1 = none ∧
    (rfhClose (rfhClose { isNil := false, closed := false }).2).1 =
      some GoErr.errClosed := by decide

/-- C6 amended: `Close` closes the underlying handle when `fd` is non-nil
and open, and returns nil without doing anything when `fd` is nil; but
calling `Close` again after a successful `Close` is not error-free — the
`fd` field is not cleared, so the already-closed handle is closed again and
the already-closed error is returned. -/
theorem closeBehavior (s : FdState) :
    (s.isNil = true → rfhClose s = (none, s)) ∧
    (s.isNil = false → s.closed = false →
      rfhClose s = (none, { s with closed := true })) ∧
    (s.isNil = false → s.closed = true →
      (rfhClose s).1 = some GoErr.errClosed) := by
  obtain ⟨n, c⟩ := s
  cases n <;> cases c <;> simp [rfhClose, fileClose]

/-- Witness for C6's amended theorem: closing an already-closed handle
returns the already-closed error. -/
theorem closeBehavior_witness :
    (rfhClose { isNil := false, closed := true }).1 =
      some GoErr.errClosed :=
  (closeBehavior { isNil := false, closed := true }).2.2 rfl rfl

/-- C7 (code bug): `Errorf` calls `fmt.Sprintf(format, a)`, passing the
whole argument slice as a single operand, so `Errorf("%d-%d", 1, 2)`
produces `"[1 2]-%!d(MISSING)"` instead of the `"1-2"` that the
`fmt.Sprintf(format, a...)` used by `Debug`/`Info`/`Warn` produces. -/
theorem errorfPassesSliceAsSingleOperand :
    ErrorfMessage "%d-%d" [GoVal.int 1, GoVal.int 2] =
      "[1 2]-%!d(MISSING)" ∧
    variadicMessage "%d-%d" [GoVal.int 1, GoVal.int 2] = "1-2" ∧
    ErrorfMessage "%d-%d" [GoVal.int 1, GoVal.int 2] ≠
      variadicMessage "%d-%d" [GoVal.int 1, GoVal.int 2] := by decide

/-- C8: the configured level is a lower-bound gate — a severity's sink is
non-empty exactly when its rank is at least the configured level — and with
`level = Warn`, Debug/Info produce no output on any sink while Warn/Error
write to every configured sink (console, and the file when configured). -/
theorem levelLowerBoundGate (L : Int) (hf : Bool) (msg : String)
    (hL : L = LevelDebug ∨ L = LevelInfo ∨ L = LevelWarn ∨ L = LevelError) :
    (∀ s : Sev, sinkFor (doLoggingHandles L hf) s ≠ [] ↔ L ≤ sevRank s) ∧
    logOutputs (sinkFor (doLoggingHandles LevelWarn hf) Sev.debug) msg = [] ∧
    logOutputs (sinkFor (doLoggingHandles LevelWarn hf) Sev.info) msg = [] ∧
    logOutputs (sinkFor (doLoggingHandles LevelWarn true) Sev.warn) msg =
      [(Dest.file, msg), (Dest.stdout, msg)] ∧
    logOutputs (sinkFor (doLoggingHandles LevelWarn true) Sev.error) msg =
      [(Dest.file, msg), (Dest.stderr, msg)] ∧
    logOutputs (sinkFor (doLoggingHandles LevelWarn false) Sev.warn) msg =
      [(Dest.stdout, msg)] ∧
    logOutputs (sinkFor (doLoggingHandles LevelWarn false) Sev.error) msg =
      [(Dest.stderr, msg)] := by
  refine ⟨?_, ?_, ?_, ?_, ?_, ?_, ?_⟩
  · intro s
    rcases hL with rfl | rfl | rfl | rfl <;> cases hf <;> cases s <;> decide
  · cases hf <;>
      simp [logOutputs, doLoggingHandles, consoleHandles, sinkFor,
        LevelWarn, LevelDebug, LevelInfo, LevelError]
  · cases hf <;>
      simp [logOutputs, doLoggingHandles, consoleHandles, sinkFor,
        LevelWarn, LevelDebug, LevelInfo, LevelError]
  · simp [logOutputs, doLoggingHandles, consoleHandles, sinkFor,
      LevelWarn, LevelDebug, LevelInfo, LevelError]
  · simp [logOutputs, doLoggingHandles, consoleHandles, sinkFor,
      LevelWarn, LevelDebug, LevelInfo, LevelError]
  · simp [logOutputs, doLoggingHandles, consoleHandles, sinkFor,
      LevelWarn, LevelDebug, LevelInfo, LevelError]
  · simp [logOutputs, doLoggingHandles, consoleHandles, sinkFor,
      LevelWarn, LevelDebug, LevelInfo, LevelError]

/-- Witness for C8 at `level = Warn` with a file configured. -/
theorem levelLowerBoundGate_witness :
    logOutputs (sinkFor (doLoggingHandles LevelWarn true) Sev.debug) "m" =
      [] :=
  (levelLowerBoundGate LevelWarn true "m" (Or.inr (Or.inr (Or.inl rfl)))).2.1

/-- Shape of a fatal trace `writes ++ optional sync ++ [exit 255]`. -/
theorem fatalShape (sink : List Dest) (msg : String) (hasFile : Bool) :
    (outputEffs sink msg ++ syncEffs hasFile ++
      [Eff.exitProc 255]).getLast? = some (Eff.exitProc 255) ∧
    List.count (Eff.exitProc 255)
      (outputEffs sink msg ++ syncEffs hasFile ++ [Eff.exitProc 255]) = 1 ∧
    (Eff.syncFd ∈ outputEffs sink msg ++ syncEffs hasFile ++
      [Eff.exitProc 255] ↔ hasFile = true) ∧
    (∀ (i j : Nat) (d : Dest) (m : String),
      (outputEffs sink msg ++ syncEffs hasFile ++
        [Eff.exitProc 255])[i]? = some (Eff.emit d m) →
      (outputEffs sink msg ++ syncEffs hasFile ++
        [Eff.exitProc 255])[j]? = some Eff.syncFd → i < j) ∧
    (∀ j, (outputEffs sink msg ++ syncEffs hasFile ++
        [Eff.exitProc 255])[j]? = some Eff.syncFd →
      (outputEffs sink msg ++ syncEffs hasFile ++
        [Eff.exitProc 255])[j + 1]? = some (Eff.exitProc 255)) := by
  have hnoexit : Eff.exitProc 255 ∉ outputEffs sink msg := by
    simp [outputEffs]
  have hnosync : Eff.syncFd ∉ outputEffs sink msg := by
    simp [outputEffs]
  have hlen : (outputEffs sink msg).length = sink.length := by
    simp [outputEffs]
  refine ⟨?_, ?_, ?_, ?_, ?_⟩
  · rw [List.getLast?_concat]
  · rw [List.count_append, List.count_append,
      List.count_eq_zero.mpr hnoexit]
    cases hasFile <;> simp [syncEffs]
  · cases hasFile <;> simp [syncEffs, hnosync]
  · intro i j d m hemit hsync
    have hij : i < (outputEffs sink msg).length := by
      by_contra hcon
      push_neg at hcon
      rw [List.append_assoc, List.getElem?_append_right hcon] at hemit
      have hmem := List.getElem?_mem hemit
      cases hasFile <;> simp [syncEffs] at hmem
    have hji : (outputEffs sink msg).length ≤ j := by
      by_contra hcon
      push_neg at hcon
      rw [List.append_assoc, List.getElem?_append_left hcon] at hsync
      rw [List.getElem?_eq_getElem hcon] at hsync
      have := List.getElem_mem hcon
      rw [Option.some_inj.mp hsync] at this
      exact hnosync this
    omega
  · intro j hsync
    have hji : (outputEffs sink msg).length ≤ j := by
      by_contra hcon
      push_neg at hcon
      rw [List.append_assoc, List.getElem?_append_left hcon] at hsync
      rw [List.getElem?_eq_getElem hcon] at hsync
      have := List.getElem_mem hcon
      rw [Option.some_inj.mp hsync] at this
      exact hnosync this
    rw [List.append_assoc, List.getElem?_append_right hji] at hsync
    rw [List.append_assoc,
      List.getElem?_append_right (by omega : (outputEffs sink msg).length ≤ j + 1)]
    cases hasFile
    · simp only [syncEffs, List.nil_append] at hsync ⊢
      rcases hk : j - (outputEffs sink msg).length with _ | k <;>
        rw [hk] at hsync <;> simp at hsync
    · simp only [syncEffs] at hsync ⊢
      rcases hk : j - (outputEffs sink msg).length with _ | k
      · have : j + 1 - (outputEffs sink msg).length = 1 := by omega
        rw [this]
        rfl
      · rw [hk] at hsync
        rcases k with _ | k2 <;> simp at hsync

/-- C9: `Fatal` and `Fatalf` write the message to the fatal sink, then sync
the file writer exactly when one is configured, then exit with code 255;
the exit is the unique final action (no caller code runs after it), every
write precedes the sync, and the sync immediately precedes the exit. -/
theorem fatalFlushThenExit (fatalSink : List Dest) (hasFile : Bool)
    (args : List GoVal) (format : String) :
    ((FatalEffs fatalSink hasFile args).getLast? =
        some (Eff.exitProc 255) ∧
      List.count (Eff.exitProc 255) (FatalEffs fatalSink hasFile args) = 1 ∧
      (Eff.syncFd ∈ FatalEffs fatalSink hasFile args ↔ hasFile = true) ∧
      (∀ (i j : Nat) (d : Dest) (m : String),
        (FatalEffs fatalSink hasFile args)[i]? = some (Eff.emit d m) →
        (FatalEffs fatalSink hasFile args)[j]? = some Eff.syncFd → i < j)) ∧
    ((FatalfEffs fatalSink hasFile format args).getLast? =
        some (Eff.exitProc 255) ∧
      List.count (Eff.exitProc 255)
        (FatalfEffs fatalSink hasFile format args) = 1 ∧
      (Eff.syncFd ∈ FatalfEffs fatalSink hasFile format args ↔
        hasFile = true) ∧
      (∀ (i j : Nat) (d : Dest) (m : String),
        (FatalfEffs fatalSink hasFile format args)[i]? =
          some (Eff.emit d m) →
        (FatalfEffs fatalSink hasFile format args)[j]? =
          some Eff.syncFd → i < j)) := by
  obtain ⟨a1, a2, a3, a4, _⟩ := fatalShape fatalSink (goSprint args) hasFile
  obtain ⟨b1, b2, b3, b4, _⟩ :=
    fatalShape fatalSink (variadicMessage format args) hasFile
  exact ⟨⟨a1, a2, a3, a4⟩, ⟨b1, b2, b3, b4⟩⟩

/-- C10: `NewRotatingFileHandler` performs no validation of `backupCount`
— a negative value is accepted whenever `0` would be, producing the same
result up to the stored field — and a handler with a negative `backupCount`
writes exactly as one with `backupCount = 0`: stat and append only, never a
rename or a backup file. -/
theorem negativeBackupCountBehavesAsZero (env : ConstructEnv)
    (fileName : String) (maxBytes b : Int) (hb : b < 0) :
    (NewRotatingFileHandler env fileName maxBytes b =
      (NewRotatingFileHandler env fileName maxBytes 0).map
        (fun h0 => { h0 with backupCount := b })) ∧
    (∀ (h : RotatingFileHandler) (fs : FS) (statOk : Bool) (data : String),
      h.backupCount = b →
      write h fs statOk data =
        write { h with backupCount := 0 } fs statOk data) := by
  constructor
  · obtain ⟨de, cc, co⟩ := env
    cases de <;> cases cc <;> cases co <;> by_cases hmb : maxBytes ≤ 0 <;>
      simp [NewRotatingFileHandler, newHandlerAfterMkdir, osMkdir, hmb,
        Except.map]
  · intro h fs statOk data hbeq
    rw [write_noRotate h fs statOk data (by omega)]
    rw [write_noRotate { h with backupCount := 0 } fs statOk data (by simp)]

/-- Witness for C10 at a concrete negative `backupCount`. -/
theorem negativeBackupCountBehavesAsZero_witness :
    NewRotatingFileHandler
        { dirExists := false, canCreateDir := true, canOpenFile := true }
        "a" 1 (-2) =
      (NewRotatingFileHandler
        { dirExists := false, canCreateDir := true, canOpenFile := true }
        "a" 1 0).map (fun h0 => { h0 with backupCount := (-2 : Int) }) :=
  (negativeBackupCountBehavesAsZero
    { dirExists := false, canCreateDir := true, canOpenFile := true }
    "a" 1 (-2) (by decide)).1

end Logger

